import Mathlib

/-!
Verification of the BaseBet prediction-betting system.

This file shallowly embeds the core of the repository in Lean 4 and proves
(or refutes) the frozen claims about it:

* `src/base-bet/src/contracts/PredictionBetting.sol` — the settlement ledger
  (markets, bets, resolution payouts, pending withdrawals).  Machine integers
  (`uint256`) are modelled as `Nat`; Solidity 0.8 checked arithmetic reverts
  on over/underflow, so sums over values that fit are faithful, and every
  `require` failure is modelled as an `Except.error` carrying the revert
  message, with revert semantics (state unchanged) given by `orRevert`.
* `src/base-bet/src/bot/bet-parser.ts` — the free-text bet parser.  JS number
  amounts are modelled as exact decimal rationals, represented as
  numerator/power-of-ten-denominator pairs of naturals; the four regexes are
  implemented as specialised scanners that agree with JS leftmost-greedy
  backtracking semantics on these patterns (the literals "eth"/"ether"
  contain no digit, dot, or whitespace, so giving back greedy repetitions can
  never produce a match that greedy matching misses).
* `src/base-bet/src/bot/mention-handler.ts` — the command router, embedded as
  a pure function from a tweet plus the answers of its external calls to the
  trace of ledger calls and replies it performs.
* `src/base-bet/src/bot/twitter-bot.ts` — the mention-ingestion loop: the
  per-batch cursor/dispatch logic of `checkForNewMentions` and the interval
  update of `intelligentPollForMentions`, both as pure step functions.
-/

namespace BaseBet

/-! ## Contract data model (PredictionBetting.sol) -/

/-- One bet, `struct Bet` (PredictionBetting.sol lines 5-10).  Addresses are
modelled as `Nat`. -/
structure Bet where
  bettor : Nat
  amount : Nat
  position : Bool
  timestamp : Nat
deriving DecidableEq, Repr

/-- One market, `struct Market` (PredictionBetting.sol lines 12-23). -/
structure Market where
  prediction : String
  tweetId : String
  creator : Nat
  deadline : Nat
  resolved : Bool
  outcome : Bool
  bets : List Bet
  totalAgree : Nat
  totalDisagree : Nat
  active : Bool
deriving Repr

/-- The contract storage (PredictionBetting.sol lines 25-31).  Solidity
mappings are total functions returning zero-initialised values for absent
keys. -/
structure ContractState where
  markets : String → Market
  marketExists : String → Bool
  pendingWithdrawals : Nat → Nat
  owner : Nat
  platformFee : Nat

/-- The zero value of a `Market` storage slot. -/
def defaultMarket : Market :=
  { prediction := "", tweetId := "", creator := 0, deadline := 0,
    resolved := false, outcome := false, bets := [],
    totalAgree := 0, totalDisagree := 0, active := false }

/-- State right after the constructor ran: empty mappings, `owner` set to the
deployer, `platformFee = 200` (2%, line 30). -/
def initialState (deployer : Nat) : ContractState :=
  { markets := fun _ => defaultMarket,
    marketExists := fun _ => false,
    pendingWithdrawals := fun _ => 0,
    owner := deployer,
    platformFee := 200 }

/-- Point update of a `String`-keyed mapping. -/
def updMarkets (f : String → Market) (k : String) (v : Market) : String → Market :=
  fun id => if id = k then v else f id

/-- Point update of an address-keyed `uint256` mapping. -/
def updNat (f : Nat → Nat) (k v : Nat) : Nat → Nat :=
  fun a => if a = k then v else f a

def BASIS_POINTS : Nat := 10000

/-- `1 ether` in wei. -/
def weiPerEther : Nat := 1000000000000000000

/-- `0.001 ether`, the minimum bet (line 100). -/
def minBetWei : Nat := 1000000000000000

/-- `10 ether`, the maximum bet (line 101). -/
def maxBetWei : Nat := 10 * weiPerEther

/-- `1 days` in seconds. -/
def secondsPerDay : Nat := 86400

/-! ## Contract operations -/

/-- `createMarket` (PredictionBetting.sol lines 64-89).  Note the source
assigns every `Market` field except `bets`, which keeps its storage value. -/
def createMarket (s : ContractState) (sender blockTimestamp : Nat)
    (tweetId prediction : String) (durationDays : Nat) :
    Except String ContractState :=
  if s.marketExists tweetId then .error "Market already exists"
  else if prediction.length = 0 then .error "Invalid prediction"
  else if ¬ (0 < durationDays ∧ durationDays ≤ 365) then .error "Invalid duration"
  else
    let deadline := blockTimestamp + durationDays * secondsPerDay
    let market : Market :=
      { prediction := prediction, tweetId := tweetId, creator := sender,
        deadline := deadline, resolved := false, outcome := false,
        bets := (s.markets tweetId).bets, totalAgree := 0, totalDisagree := 0,
        active := true }
    .ok { s with
      markets := updMarkets s.markets tweetId market,
      marketExists := fun id => if id = tweetId then true else s.marketExists id }

/-- `placeBet` (PredictionBetting.sol lines 91-117).  `msgValue` is the
attached wei. -/
def placeBet (s : ContractState) (sender blockTimestamp : Nat)
    (tweetId : String) (position : Bool) (msgValue : Nat) :
    Except String ContractState :=
  if ¬ s.marketExists tweetId then .error "Market does not exist"
  else
    let market := s.markets tweetId
    if ¬ market.active then .error "Market not active"
    else if ¬ (blockTimestamp < market.deadline) then .error "Betting period ended"
    else if market.resolved then .error "Market already resolved"
    else if ¬ (0 < msgValue) then .error "Bet amount must be > 0"
    else if ¬ (minBetWei ≤ msgValue) then .error "Minimum bet is 0.001 ETH"
    else if ¬ (msgValue ≤ maxBetWei) then .error "Maximum bet is 10 ETH"
    else
      let bet : Bet :=
        { bettor := sender, amount := msgValue, position := position,
          timestamp := blockTimestamp }
      let market2 : Market :=
        { market with
          bets := market.bets ++ [bet],
          totalAgree := if position then market.totalAgree + msgValue else market.totalAgree,
          totalDisagree := if position then market.totalDisagree else market.totalDisagree + msgValue }
      .ok { s with markets := updMarkets s.markets tweetId market2 }

/-- The refund loop of `resolveMarket` (lines 139-142): credit every bettor
with their stake. -/
def refundAll (pw : Nat → Nat) : List Bet → (Nat → Nat)
  | [] => pw
  | b :: rest => refundAll (updNat pw b.bettor (pw b.bettor + b.amount)) rest

/-- The distribution loop of `resolveMarket` (lines 149-156): each bet on the
winning side is credited `amount + amount * prizePool / winningPool`. -/
def distributeWinnings (pw : Nat → Nat) (outcome : Bool)
    (winningPool prizePool : Nat) : List Bet → (Nat → Nat)
  | [] => pw
  | b :: rest =>
      if b.position = outcome then
        distributeWinnings
          (updNat pw b.bettor (pw b.bettor + (b.amount + b.amount * prizePool / winningPool)))
          outcome winningPool prizePool rest
      else distributeWinnings pw outcome winningPool prizePool rest

/-- `resolveMarket` (PredictionBetting.sol lines 119-163). -/
def resolveMarket (s : ContractState) (sender blockTimestamp : Nat)
    (tweetId : String) (outcome : Bool) : Except String ContractState :=
  if ¬ (sender = s.owner) then .error "Only owner"
  else if ¬ s.marketExists tweetId then .error "Market does not exist"
  else
    let market := s.markets tweetId
    if ¬ market.active then .error "Market not active"
    else if market.resolved then .error "Already resolved"
    else if ¬ (market.deadline ≤ blockTimestamp) then .error "Market not yet expired"
    else
      let market2 : Market := { market with resolved := true, outcome := outcome }
      let s2 : ContractState := { s with markets := updMarkets s.markets tweetId market2 }
      let totalPool := market.totalAgree + market.totalDisagree
      if totalPool = 0 then .ok s2
      else
        let winningPool := if outcome then market.totalAgree else market.totalDisagree
        let losingPool := if outcome then market.totalDisagree else market.totalAgree
        if winningPool = 0 then
          .ok { s2 with pendingWithdrawals := refundAll s.pendingWithdrawals market.bets }
        else
          let platformFeeAmount := losingPool * s.platformFee / BASIS_POINTS
          let prizePool := losingPool - platformFeeAmount
          let pw1 := distributeWinnings s.pendingWithdrawals outcome winningPool prizePool market.bets
          .ok { s2 with
            pendingWithdrawals := updNat pw1 s.owner (pw1 s.owner + platformFeeAmount) }

/-- EVM revert semantics: a failed call leaves storage unchanged. -/
def orRevert (s : ContractState) : Except String ContractState → ContractState
  | .ok s2 => s2
  | .error _ => s

/-! ## Sums over bet lists -/

/-- Sum of the amounts of all bets in a list. -/
def betAmountSum (bets : List Bet) : Nat := (bets.map Bet.amount).sum

/-- Amounts of the bets on side `pos`, in order. -/
def sideAmounts (pos : Bool) (bets : List Bet) : List Nat :=
  (bets.filter (fun b => b.position = pos)).map Bet.amount

/-- Total staked on side `pos`. -/
def sideSum (pos : Bool) (bets : List Bet) : Nat := (sideAmounts pos bets).sum

/-- Number of bets on side `pos`. -/
def sideCount (pos : Bool) (bets : List Bet) : Nat :=
  (bets.filter (fun b => b.position = pos)).length

/-- Payout of one winning bet of `amt`: stake plus truncated proportional
share of the prize pool. -/
def winPayout (winningPool prizePool amt : Nat) : Nat :=
  amt + amt * prizePool / winningPool

/-- Total credited to account `a` by the refund loop. -/
def stakeSum (bets : List Bet) (a : Nat) : Nat :=
  ((bets.filter (fun b => b.bettor = a)).map Bet.amount).sum

/-- Total credited to account `a` by the winnings-distribution loop. -/
def winSum (outcome : Bool) (winningPool prizePool : Nat) (bets : List Bet) (a : Nat) : Nat :=
  (((bets.filter (fun b => b.position = outcome ∧ b.bettor = a)).map Bet.amount).map
    (winPayout winningPool prizePool)).sum

/-- Sum of all winner payouts of a resolution. -/
def totalPayout (outcome : Bool) (winningPool prizePool : Nat) (bets : List Bet) : Nat :=
  ((sideAmounts outcome bets).map (winPayout winningPool prizePool)).sum

theorem refundAll_apply (bets : List Bet) (pw : Nat → Nat) (a : Nat) :
    refundAll pw bets a = pw a + stakeSum bets a := by
  induction bets generalizing pw with
  | nil => simp [refundAll, stakeSum]
  | cons b rest ih =>
      simp only [refundAll, ih, stakeSum, List.filter_cons]
      by_cases hb : b.bettor = a
      · simp [updNat, hb, stakeSum, Nat.add_assoc]
      · have : ¬ (a = b.bettor) := fun h => hb h.symm
        simp [updNat, this, hb, stakeSum]

theorem distributeWinnings_apply (outcome : Bool) (W P : Nat)
    (bets : List Bet) (pw : Nat → Nat) (a : Nat) :
    distributeWinnings pw outcome W P bets a = pw a + winSum outcome W P bets a := by
  induction bets generalizing pw with
  | nil => simp [distributeWinnings, winSum]
  | cons b rest ih =>
      simp only [distributeWinnings]
      by_cases hp : b.position = outcome
      · simp only [hp, if_true, ih]
        by_cases hb : b.bettor = a
        · have hane : (a = b.bettor) := hb.symm
          simp only [updNat, if_pos hane, winSum, List.filter_cons, hp, hb]
          simp [winPayout, Nat.add_assoc]
        · have hane : ¬ (a = b.bettor) := fun h => hb h.symm
          simp only [updNat, if_neg hane, winSum, List.filter_cons, hp, hb]
          simp
      · simp [hp, ih, winSum, List.filter_cons]

/-! ## Resolution arithmetic -/

/-- `winningPool` as computed on line 134. -/
def winningPoolOf (m : Market) (oc : Bool) : Nat :=
  if oc then m.totalAgree else m.totalDisagree

/-- `losingPool` as computed on line 135. -/
def losingPoolOf (m : Market) (oc : Bool) : Nat :=
  if oc then m.totalDisagree else m.totalAgree

/-- `platformFeeAmount` as computed on line 145. -/
def feeOf (m : Market) (pf : Nat) (oc : Bool) : Nat :=
  losingPoolOf m oc * pf / BASIS_POINTS

/-- `prizePool` as computed on line 146. -/
def prizePoolOf (m : Market) (pf : Nat) (oc : Bool) : Nat :=
  losingPoolOf m oc - feeOf m pf oc

theorem sum_prop_shares_le (W P : Nat) (l : List Nat) :
    W * (l.map (fun a => a * P / W)).sum ≤ l.sum * P := by
  induction l with
  | nil => simp
  | cons a l ih =>
      simp only [List.map_cons, List.sum_cons]
      calc W * (a * P / W + (l.map (fun a => a * P / W)).sum)
          = W * (a * P / W) + W * (l.map (fun a => a * P / W)).sum := by ring
        _ ≤ a * P + l.sum * P := by
            refine Nat.add_le_add ?_ ih
            rw [Nat.mul_comm]
            exact Nat.div_mul_le_self _ _
        _ = (a + l.sum) * P := by ring

theorem sum_prop_shares_ge (W P : Nat) (hW : 0 < W) (l : List Nat) :
    l.sum * P ≤ W * (l.map (fun a => a * P / W)).sum + l.length * (W - 1) := by
  induction l with
  | nil => simp
  | cons a l ih =>
      have h1 : a * P ≤ W * (a * P / W) + (W - 1) := by
        have hd := Nat.div_add_mod (a * P) W
        have hm : a * P % W < W := Nat.mod_lt _ hW
        omega
      simp only [List.map_cons, List.sum_cons, List.length_cons]
      calc (a + l.sum) * P = a * P + l.sum * P := by ring
        _ ≤ (W * (a * P / W) + (W - 1))
              + (W * (l.map (fun a => a * P / W)).sum + l.length * (W - 1)) :=
            Nat.add_le_add h1 ih
        _ = W * (a * P / W + (l.map (fun a => a * P / W)).sum)
              + (l.length + 1) * (W - 1) := by ring

theorem sum_map_add (f : Nat → Nat) (l : List Nat) :
    (l.map (fun a => a + f a)).sum = l.sum + (l.map f).sum := by
  induction l with
  | nil => simp
  | cons a l ih => simp [ih]; omega

theorem totalPayout_split (oc : Bool) (W P : Nat) (bets : List Bet) :
    totalPayout oc W P bets
      = sideSum oc bets + ((sideAmounts oc bets).map (fun a => a * P / W)).sum := by
  unfold totalPayout sideSum winPayout
  exact sum_map_add (fun a => a * P / W) (sideAmounts oc bets)

theorem sideCount_eq_length (oc : Bool) (bets : List Bet) :
    sideCount oc bets = (sideAmounts oc bets).length := by
  simp [sideCount, sideAmounts]

theorem winningPool_ne_zero_totalPool (m : Market) (oc : Bool)
    (hW : winningPoolOf m oc ≠ 0) : ¬ (m.totalAgree + m.totalDisagree = 0) := by
  unfold winningPoolOf at hW
  cases oc <;> simp_all

/-- Shape of a successful resolution with a non-empty winning pool
(lines 143-159 of the source). -/
theorem resolveMarket_win_eq (s : ContractState) (t : Nat) (id : String) (oc : Bool)
    (hex : s.marketExists id = true)
    (hact : (s.markets id).active = true)
    (hres : (s.markets id).resolved = false)
    (hdl : (s.markets id).deadline ≤ t)
    (hW : winningPoolOf (s.markets id) oc ≠ 0) :
    resolveMarket s s.owner t id oc = .ok
      { s with
        markets := updMarkets s.markets id
          { s.markets id with resolved := true, outcome := oc },
        pendingWithdrawals :=
          updNat
            (distributeWinnings s.pendingWithdrawals oc (winningPoolOf (s.markets id) oc)
              (prizePoolOf (s.markets id) s.platformFee oc) (s.markets id).bets)
            s.owner
            (distributeWinnings s.pendingWithdrawals oc (winningPoolOf (s.markets id) oc)
              (prizePoolOf (s.markets id) s.platformFee oc) (s.markets id).bets s.owner
              + feeOf (s.markets id) s.platformFee oc) } := by
  have htp := winningPool_ne_zero_totalPool (s.markets id) oc hW
  unfold winningPoolOf at hW
  simp [resolveMarket, hex, hact, hres, hdl, htp, hW,
    winningPoolOf, losingPoolOf, feeOf, prizePoolOf]

/-- Shape of a successful resolution with winning pool zero but a non-empty
total pool (lines 137-142 of the source): the refund branch. -/
theorem resolveMarket_refund_eq (s : ContractState) (t : Nat) (id : String) (oc : Bool)
    (hex : s.marketExists id = true)
    (hact : (s.markets id).active = true)
    (hres : (s.markets id).resolved = false)
    (hdl : (s.markets id).deadline ≤ t)
    (htp : ¬ ((s.markets id).totalAgree + (s.markets id).totalDisagree = 0))
    (hW : winningPoolOf (s.markets id) oc = 0) :
    resolveMarket s s.owner t id oc = .ok
      { s with
        markets := updMarkets s.markets id
          { s.markets id with resolved := true, outcome := oc },
        pendingWithdrawals := refundAll s.pendingWithdrawals (s.markets id).bets } := by
  unfold winningPoolOf at hW
  simp [resolveMarket, hex, hact, hres, hdl, htp, hW]

/-- Claim C1: for every market resolved with a non-zero winning pool, the
platform fee is `losingPool * platformFee / 10000` (truncating division:
`feeOf` is by definition that expression), each winning bettor is credited
`stake + stake * (losingPool - fee) / winningPool` per bet (the `winSum`
conjunct, with `prizePoolOf = losingPool - fee`; the owner additionally
receives exactly the fee), and the sum of all winner payouts plus the fee
equals `totalAgree + totalDisagree` minus a dust remainder of at most one
unit per winning bet.  The coherence hypotheses `hca`/`hcd` state that the
incrementally maintained totals match the recorded bets, which holds in all
reachable states (claim C3). -/
theorem resolve_payout_conservation (s : ContractState) (t : Nat) (id : String) (oc : Bool)
    (hex : s.marketExists id = true)
    (hact : (s.markets id).active = true)
    (hres : (s.markets id).resolved = false)
    (hdl : (s.markets id).deadline ≤ t)
    (hca : (s.markets id).totalAgree = sideSum true (s.markets id).bets)
    (hcd : (s.markets id).totalDisagree = sideSum false (s.markets id).bets)
    (hW : winningPoolOf (s.markets id) oc ≠ 0)
    (hpf : s.platformFee ≤ BASIS_POINTS) :
    ∃ s2, resolveMarket s s.owner t id oc = .ok s2 ∧
      (∀ a, s2.pendingWithdrawals a =
          s.pendingWithdrawals a
            + winSum oc (winningPoolOf (s.markets id) oc)
                (prizePoolOf (s.markets id) s.platformFee oc) (s.markets id).bets a
            + (if a = s.owner then feeOf (s.markets id) s.platformFee oc else 0)) ∧
      ∃ dust, dust ≤ sideCount oc (s.markets id).bets ∧
        totalPayout oc (winningPoolOf (s.markets id) oc)
            (prizePoolOf (s.markets id) s.platformFee oc) (s.markets id).bets
          + feeOf (s.markets id) s.platformFee oc + dust
          = (s.markets id).totalAgree + (s.markets id).totalDisagree := by
  refine ⟨_, resolveMarket_win_eq s t id oc hex hact hres hdl hW, ?_, ?_⟩
  · intro a
    by_cases ha : a = s.owner
    · simp [updNat, ha, distributeWinnings_apply, Nat.add_assoc]
    · simp [updNat, ha, distributeWinnings_apply]
  · have hWpos : 0 < winningPoolOf (s.markets id) oc := Nat.pos_of_ne_zero hW
    have hsum : (sideAmounts oc (s.markets id).bets).sum = winningPoolOf (s.markets id) oc := by
      cases oc
      · simp [winningPoolOf, hcd, sideSum]
      · simp [winningPoolOf, hca, sideSum]
    have hfee : feeOf (s.markets id) s.platformFee oc ≤ losingPoolOf (s.markets id) oc := by
      unfold feeOf
      calc losingPoolOf (s.markets id) oc * s.platformFee / BASIS_POINTS
          ≤ losingPoolOf (s.markets id) oc * BASIS_POINTS / BASIS_POINTS :=
            Nat.div_le_div_right (Nat.mul_le_mul_left _ hpf)
        _ = losingPoolOf (s.markets id) oc := Nat.mul_div_cancel _ (by norm_num [BASIS_POINTS])
    have hup : ((sideAmounts oc (s.markets id).bets).map
        (fun a => a * prizePoolOf (s.markets id) s.platformFee oc / winningPoolOf (s.markets id) oc)).sum
        ≤ prizePoolOf (s.markets id) s.platformFee oc := by
      have h := sum_prop_shares_le (winningPoolOf (s.markets id) oc)
        (prizePoolOf (s.markets id) s.platformFee oc) (sideAmounts oc (s.markets id).bets)
      rw [hsum] at h
      exact Nat.le_of_mul_le_mul_left h hWpos
    have hlow : prizePoolOf (s.markets id) s.platformFee oc
        ≤ ((sideAmounts oc (s.markets id).bets).map
            (fun a => a * prizePoolOf (s.markets id) s.platformFee oc / winningPoolOf (s.markets id) oc)).sum
          + (sideAmounts oc (s.markets id).bets).length := by
      have h := sum_prop_shares_ge (winningPoolOf (s.markets id) oc)
        (prizePoolOf (s.markets id) s.platformFee oc) hWpos (sideAmounts oc (s.markets id).bets)
      rw [hsum] at h
      have h2 : winningPoolOf (s.markets id) oc * prizePoolOf (s.markets id) s.platformFee oc
          ≤ winningPoolOf (s.markets id) oc
              * (((sideAmounts oc (s.markets id).bets).map
                  (fun a => a * prizePoolOf (s.markets id) s.platformFee oc / winningPoolOf (s.markets id) oc)).sum
                + (sideAmounts oc (s.markets id).bets).length) := by
        have h3 : (sideAmounts oc (s.markets id).bets).length * (winningPoolOf (s.markets id) oc - 1)
            ≤ (sideAmounts oc (s.markets id).bets).length * winningPoolOf (s.markets id) oc :=
          Nat.mul_le_mul_left _ (Nat.sub_le _ _)
        calc winningPoolOf (s.markets id) oc * prizePoolOf (s.markets id) s.platformFee oc
            ≤ _ := h
          _ ≤ winningPoolOf (s.markets id) oc
                * ((sideAmounts oc (s.markets id).bets).map
                    (fun a => a * prizePoolOf (s.markets id) s.platformFee oc / winningPoolOf (s.markets id) oc)).sum
              + (sideAmounts oc (s.markets id).bets).length * winningPoolOf (s.markets id) oc :=
            Nat.add_le_add_left h3 _
          _ = _ := by ring
      exact Nat.le_of_mul_le_mul_left h2 hWpos
    refine ⟨prizePoolOf (s.markets id) s.platformFee oc
        - ((sideAmounts oc (s.markets id).bets).map
            (fun a => a * prizePoolOf (s.markets id) s.platformFee oc / winningPoolOf (s.markets id) oc)).sum,
      ?_, ?_⟩
    · rw [sideCount_eq_length]
      omega
    · rw [totalPayout_split]
      have hss : sideSum oc (s.markets id).bets = winningPoolOf (s.markets id) oc := hsum
      have hP : prizePoolOf (s.markets id) s.platformFee oc
          = losingPoolOf (s.markets id) oc - feeOf (s.markets id) s.platformFee oc := rfl
      have hWL : winningPoolOf (s.markets id) oc + losingPoolOf (s.markets id) oc
          = (s.markets id).totalAgree + (s.markets id).totalDisagree := by
        cases oc
        · simp [winningPoolOf, losingPoolOf]
          omega
        · simp [winningPoolOf, losingPoolOf]
      omega

/-- Claim C2: resolving a non-empty market on an outcome with no winning
stake credits every bettor exactly their own total stake back, and credits
a fee to no one (in particular the owner gains only whatever stake they
themselves had in the market). -/
theorem resolve_no_winner_refund (s : ContractState) (t : Nat) (id : String) (oc : Bool)
    (hex : s.marketExists id = true)
    (hact : (s.markets id).active = true)
    (hres : (s.markets id).resolved = false)
    (hdl : (s.markets id).deadline ≤ t)
    (htp : (s.markets id).totalAgree + (s.markets id).totalDisagree ≠ 0)
    (hW : winningPoolOf (s.markets id) oc = 0) :
    ∃ s2, resolveMarket s s.owner t id oc = .ok s2 ∧
      ∀ a, s2.pendingWithdrawals a = s.pendingWithdrawals a + stakeSum (s.markets id).bets a := by
  refine ⟨_, resolveMarket_refund_eq s t id oc hex hact hres hdl htp hW, ?_⟩
  intro a
  exact refundAll_apply (s.markets id).bets s.pendingWithdrawals a

/-- Claim C4: re-resolving an already-resolved market reverts with
"Already resolved" and leaves every piece of ledger state unchanged, so the
first resolution's `outcome` is never overwritten.  The hypotheses
`h1`/`h2`/`h3` make the earlier checks of `resolveMarket` pass (an
authorized caller, an existing market, `active = true`; note the contract
never clears `active`, so every market resolved by `resolveMarket`
satisfies them). -/
theorem resolve_already_resolved_unchanged (s : ContractState) (sender t : Nat)
    (id : String) (oc : Bool)
    (h1 : sender = s.owner)
    (h2 : s.marketExists id = true)
    (h3 : (s.markets id).active = true)
    (h4 : (s.markets id).resolved = true) :
    resolveMarket s sender t id oc = .error "Already resolved" ∧
      orRevert s (resolveMarket s sender t id oc) = s ∧
      ((orRevert s (resolveMarket s sender t id oc)).markets id).outcome
        = (s.markets id).outcome := by
  have hstep : resolveMarket s sender t id oc = .error "Already resolved" := by
    simp [resolveMarket, h1, h2, h3, h4]
  exact ⟨hstep, by rw [hstep]; rfl, by rw [hstep]; rfl⟩

/-! ## Concrete witness states

A two-bet market matching the worked example of the spec: bettor 2 stakes
0.1 ETH on agree, bettor 3 stakes 0.05 ETH on disagree; the deployer is
account 1. -/

def wbetA : Bet :=
  { bettor := 2, amount := 100000000000000000, position := true, timestamp := 5 }

def wbetB : Bet :=
  { bettor := 3, amount := 50000000000000000, position := false, timestamp := 6 }

def wMarket : Market :=
  { prediction := "btc 120k by eoy", tweetId := "m", creator := 2, deadline := 100,
    resolved := false, outcome := false, bets := [wbetA, wbetB],
    totalAgree := 100000000000000000, totalDisagree := 50000000000000000,
    active := true }

def wState : ContractState :=
  { markets := fun id => if id = "m" then wMarket else defaultMarket,
    marketExists := fun id => if id = "m" then true else false,
    pendingWithdrawals := fun _ => 0,
    owner := 1,
    platformFee := 200 }

/-- A state whose market "m" is already resolved (as a first resolution at
time 200 would leave it). -/
def wStateResolved : ContractState :=
  { wState with
    markets := fun id =>
      if id = "m" then { wMarket with resolved := true, outcome := true }
      else defaultMarket }

/-- Witness for claim C1: the hypotheses hold for `wState` resolved to
agree at time 200, and the conclusion follows by the theorem. -/
theorem resolve_payout_conservation_witness :
    (wState.marketExists "m" = true
      ∧ (wState.markets "m").active = true
      ∧ (wState.markets "m").resolved = false
      ∧ (wState.markets "m").deadline ≤ 200
      ∧ (wState.markets "m").totalAgree = sideSum true (wState.markets "m").bets
      ∧ (wState.markets "m").totalDisagree = sideSum false (wState.markets "m").bets
      ∧ winningPoolOf (wState.markets "m") true ≠ 0
      ∧ wState.platformFee ≤ BASIS_POINTS)
    ∧ (∃ s2, resolveMarket wState wState.owner 200 "m" true = .ok s2 ∧
        (∀ a, s2.pendingWithdrawals a =
            wState.pendingWithdrawals a
              + winSum true (winningPoolOf (wState.markets "m") true)
                  (prizePoolOf (wState.markets "m") wState.platformFee true)
                  (wState.markets "m").bets a
              + (if a = wState.owner then feeOf (wState.markets "m") wState.platformFee true else 0)) ∧
        ∃ dust, dust ≤ sideCount true (wState.markets "m").bets ∧
          totalPayout true (winningPoolOf (wState.markets "m") true)
              (prizePoolOf (wState.markets "m") wState.platformFee true)
              (wState.markets "m").bets
            + feeOf (wState.markets "m") wState.platformFee true + dust
            = (wState.markets "m").totalAgree + (wState.markets "m").totalDisagree) :=
  ⟨⟨by decide, by decide, by decide, by decide, by decide, by decide, by decide, by decide⟩,
    resolve_payout_conservation wState 200 "m" true (by decide) (by decide) (by decide)
      (by decide) (by decide) (by decide) (by decide) (by decide)⟩

/-- Witness for claim C2: a one-sided market (only the agree bet), resolved
to disagree, refunds the stake. -/
def wStateOneSided : ContractState :=
  { wState with
    markets := fun id =>
      if id = "m" then
        { wMarket with bets := [wbetA], totalDisagree := 0 }
      else defaultMarket }

theorem resolve_no_winner_refund_witness :
    (wStateOneSided.marketExists "m" = true
      ∧ (wStateOneSided.markets "m").active = true
      ∧ (wStateOneSided.markets "m").resolved = false
      ∧ (wStateOneSided.markets "m").deadline ≤ 200
      ∧ (wStateOneSided.markets "m").totalAgree + (wStateOneSided.markets "m").totalDisagree ≠ 0
      ∧ winningPoolOf (wStateOneSided.markets "m") false = 0)
    ∧ (∃ s2, resolveMarket wStateOneSided wStateOneSided.owner 200 "m" false = .ok s2 ∧
        ∀ a, s2.pendingWithdrawals a =
          wStateOneSided.pendingWithdrawals a + stakeSum (wStateOneSided.markets "m").bets a) :=
  ⟨⟨by decide, by decide, by decide, by decide, by decide, by decide⟩,
    resolve_no_winner_refund wStateOneSided 200 "m" false (by decide) (by decide) (by decide)
      (by decide) (by decide) (by decide)⟩

/-- Witness for claim C4: re-resolving the already-resolved market "m"
reverts and changes nothing. -/
theorem resolve_already_resolved_unchanged_witness :
    (1 = wStateResolved.owner
      ∧ wStateResolved.marketExists "m" = true
      ∧ (wStateResolved.markets "m").active = true
      ∧ (wStateResolved.markets "m").resolved = true)
    ∧ (resolveMarket wStateResolved 1 300 "m" false = .error "Already resolved"
      ∧ orRevert wStateResolved (resolveMarket wStateResolved 1 300 "m" false) = wStateResolved
      ∧ ((orRevert wStateResolved (resolveMarket wStateResolved 1 300 "m" false)).markets "m").outcome
          = (wStateResolved.markets "m").outcome) :=
  ⟨⟨by decide, by decide, by decide, by decide⟩,
    resolve_already_resolved_unchanged wStateResolved 1 300 "m" false (by decide) (by decide)
      (by decide) (by decide)⟩

/-! ## Claim C3: totals invariant over operation sequences -/

/-- One external call to the contract: a `createMarket` or a `placeBet`,
with its caller, block timestamp and arguments.  A call whose `require`
fails reverts and leaves the state unchanged, so runs over arbitrary `Op`
lists cover exactly the states reachable by sequences of successful calls. -/
inductive Op where
  | create (sender blockTimestamp : Nat) (tweetId prediction : String) (durationDays : Nat)
  | bet (sender blockTimestamp : Nat) (tweetId : String) (position : Bool) (msgValue : Nat)

def applyOp (s : ContractState) : Op → ContractState
  | .create sd t id p d => orRevert s (createMarket s sd t id p d)
  | .bet sd t id pos v => orRevert s (placeBet s sd t id pos v)

def runOps (deployer : Nat) (ops : List Op) : ContractState :=
  ops.foldl applyOp (initialState deployer)

/-- The strengthened invariant: unused market slots are at their zero value,
and every market's running totals equal the sum of its recorded bets. -/
def LedgerInv (s : ContractState) : Prop :=
  ∀ id, (s.marketExists id = false →
          (s.markets id).bets = [] ∧ (s.markets id).totalAgree = 0
            ∧ (s.markets id).totalDisagree = 0)
    ∧ (s.markets id).totalAgree + (s.markets id).totalDisagree
        = betAmountSum (s.markets id).bets

theorem ledgerInv_initial (deployer : Nat) : LedgerInv (initialState deployer) := by
  intro id
  simp [initialState, defaultMarket, betAmountSum]

theorem updMarkets_self (f : String → Market) (k : String) (v : Market) :
    updMarkets f k v k = v := by
  simp [updMarkets]

theorem updMarkets_other (f : String → Market) (k : String) (v : Market)
    (id : String) (h : id ≠ k) : updMarkets f k v id = f id := by
  simp [updMarkets, h]

theorem betAmountSum_append (l : List Bet) (b : Bet) :
    betAmountSum (l ++ [b]) = betAmountSum l + b.amount := by
  simp [betAmountSum]

theorem createMarket_ok_shape (s : ContractState) (sd t : Nat) (id p : String) (d : Nat)
    (h1 : s.marketExists id = false) (h2 : p.length ≠ 0)
    (h3 : 0 < d) (h4 : d ≤ 365) :
    createMarket s sd t id p d = .ok
      { s with
        markets := updMarkets s.markets id
          { prediction := p, tweetId := id, creator := sd,
            deadline := t + d * secondsPerDay, resolved := false, outcome := false,
            bets := (s.markets id).bets, totalAgree := 0, totalDisagree := 0,
            active := true },
        marketExists := fun k => if k = id then true else s.marketExists k } := by
  simp [createMarket, h1, h2, h3, h4]

theorem ledgerInv_createMarket (s : ContractState) (sd t : Nat) (id p : String) (d : Nat)
    (hinv : LedgerInv s) : LedgerInv (orRevert s (createMarket s sd t id p d)) := by
  by_cases h1 : s.marketExists id
  · have he : createMarket s sd t id p d = .error "Market already exists" := by
      simp [createMarket, h1]
    rw [he]
    exact hinv
  · by_cases h2 : p.length = 0
    · have he : createMarket s sd t id p d = .error "Invalid prediction" := by
        simp [createMarket, h1, h2]
      rw [he]
      exact hinv
    · by_cases h3 : 0 < d ∧ d ≤ 365
      · rw [createMarket_ok_shape s sd t id p d (by simpa using h1) h2 h3.1 h3.2]
        have hb : (s.markets id).bets = [] := ((hinv id).1 (by simpa using h1)).1
        intro id2
        by_cases hid : id2 = id
        · subst hid
          simp [orRevert, updMarkets_self, hb, betAmountSum]
        · simp only [orRevert, updMarkets_other _ _ _ _ hid]
          simpa [hid] using hinv id2
      · have he : createMarket s sd t id p d = .error "Invalid duration" := by
          simp only [createMarket]
          rw [if_neg (by simp [h1]), if_neg h2, if_pos h3]
        rw [he]
        exact hinv

theorem placeBet_ok_shape (s : ContractState) (sd t : Nat) (id : String) (pos : Bool) (v : Nat)
    (h1 : s.marketExists id = true) (h2 : (s.markets id).active = true)
    (h3 : t < (s.markets id).deadline) (h4 : (s.markets id).resolved = false)
    (h5 : 0 < v) (h6 : minBetWei ≤ v) (h7 : v ≤ maxBetWei) :
    placeBet s sd t id pos v = .ok
      { s with
        markets := updMarkets s.markets id
          { s.markets id with
            bets := (s.markets id).bets
              ++ [{ bettor := sd, amount := v, position := pos, timestamp := t }],
            totalAgree := if pos then (s.markets id).totalAgree + v else (s.markets id).totalAgree,
            totalDisagree := if pos then (s.markets id).totalDisagree else (s.markets id).totalDisagree + v } } := by
  simp [placeBet, h1, h2, h3, h4, h5, h6, h7]

theorem ledgerInv_placeBet (s : ContractState) (sd t : Nat) (id : String) (pos : Bool) (v : Nat)
    (hinv : LedgerInv s) : LedgerInv (orRevert s (placeBet s sd t id pos v)) := by
  by_cases h1 : s.marketExists id = true
  · by_cases h2 : (s.markets id).active = true
    · by_cases h3 : t < (s.markets id).deadline
      · by_cases h4 : (s.markets id).resolved = false
        · by_cases h5 : 0 < v
          · by_cases h6 : minBetWei ≤ v
            · by_cases h7 : v ≤ maxBetWei
              · rw [placeBet_ok_shape s sd t id pos v h1 h2 h3 h4 h5 h6 h7]
                simp only [orRevert]
                intro id2
                by_cases hid : id2 = id
                · subst hid
                  constructor
                  · intro hfalse
                    have hh : s.marketExists id2 = false := hfalse
                    cases h1.symm.trans hh
                  · have hold := (hinv id2).2
                    simp only [updMarkets_self]
                    cases pos
                    · simp [betAmountSum_append, hold]
                      omega
                    · simp [betAmountSum_append, hold]
                      omega
                · simp only [updMarkets_other _ _ _ _ hid]
                  exact hinv id2
              · have he : placeBet s sd t id pos v = .error "Maximum bet is 10 ETH" := by
                  simp [placeBet, h1, h2, h3, h4, h5, h6, h7]
                rw [he]
                exact hinv
            · have he : placeBet s sd t id pos v = .error "Minimum bet is 0.001 ETH" := by
                simp [placeBet, h1, h2, h3, h4, h5, h6]
              rw [he]
              exact hinv
          · have he : placeBet s sd t id pos v = .error "Bet amount must be > 0" := by
              simp [placeBet, h1, h2, h3, h4, h5]
            rw [he]
            exact hinv
        · have he : placeBet s sd t id pos v = .error "Market already resolved" := by
            have h4b : (s.markets id).resolved = true := by
              cases hr : (s.markets id).resolved
              · exact absurd hr h4
              · rfl
            simp [placeBet, h1, h2, h3, h4b]
          rw [he]
          exact hinv
      · have he : placeBet s sd t id pos v = .error "Betting period ended" := by
          simp [placeBet, h1, h2, h3]
        rw [he]
        exact hinv
    · have he : placeBet s sd t id pos v = .error "Market not active" := by
        simp [placeBet, h1, h2]
      rw [he]
      exact hinv
  · have he : placeBet s sd t id pos v = .error "Market does not exist" := by
      simp [placeBet, h1]
    rw [he]
    exact hinv

theorem ledgerInv_applyOp (s : ContractState) (op : Op) (hinv : LedgerInv s) :
    LedgerInv (applyOp s op) := by
  cases op with
  | create sd t id p d => exact ledgerInv_createMarket s sd t id p d hinv
  | bet sd t id pos v => exact ledgerInv_placeBet s sd t id pos v hinv

theorem ledgerInv_foldl (ops : List Op) (s : ContractState) (hinv : LedgerInv s) :
    LedgerInv (ops.foldl applyOp s) := by
  induction ops generalizing s with
  | nil => exact hinv
  | cons op rest ih => exact ih (applyOp s op) (ledgerInv_applyOp s op hinv)

/-- Claim C3: after any sequence of `createMarket`/`placeBet` calls (failed
calls revert, so arbitrary sequences cover all sequences of successful
calls, and every intermediate state of a run is itself the run of a
prefix), every market's `totalAgree + totalDisagree` equals the sum of the
amounts of its recorded bets. -/
theorem totals_match_bets (deployer : Nat) (ops : List Op) (id : String) :
    ((runOps deployer ops).markets id).totalAgree
      + ((runOps deployer ops).markets id).totalDisagree
      = betAmountSum ((runOps deployer ops).markets id).bets :=
  (ledgerInv_foldl ops (initialState deployer) (ledgerInv_initial deployer) id).2

/-! ## The bet parser (bet-parser.ts)

`BetParser.parseBetFromTweet` lowercases and trims the tweet text, extracts
an amount with four regexes tried in order, bounds-checks it, and then looks
for agree/disagree vocabulary by substring containment, agree words first.
Amounts (JS floats parsed from exact decimal literals) are modelled as exact
decimal rationals, as numerator/denominator pairs compared by cross
multiplication. -/

/-- ASCII case folding, the fragment of JS `toLowerCase` the claims need. -/
def toLowerChar (c : Char) : Char :=
  if 'A' ≤ c ∧ c ≤ 'Z' then Char.ofNat (c.toNat + 32) else c

/-- JS `trim`: drop leading and trailing whitespace. -/
def trimChars (cs : List Char) : List Char :=
  ((cs.dropWhile Char.isWhitespace).reverse.dropWhile Char.isWhitespace).reverse

/-- Match `\d+\.?\d*` at the head of `cs`; return the captured characters
and the remainder.  Greedy matching is exact here: the tokens that follow in
the patterns (whitespace, then a letter) can never match a digit or a dot
given back by backtracking. -/
def numCapture (cs : List Char) : Option (List Char × List Char) :=
  let ds1 := cs.takeWhile Char.isDigit
  if ds1.isEmpty then none
  else
    match cs.dropWhile Char.isDigit with
    | '.' :: rest2 =>
        some (ds1 ++ '.' :: rest2.takeWhile Char.isDigit, rest2.dropWhile Char.isDigit)
    | rest1 => some (ds1, rest1)

/-- Leftmost match of `(\d+\.?\d*)\s*LIT` (patterns 1 and 2 of
bet-parser.ts lines 14-15); returns the capture group.  The scan advances
one character at a time on failure, as a JS regex engine does. -/
def matchNumThenLit (lit : List Char) : List Char → Option (List Char)
  | [] => none
  | c :: rest =>
      match numCapture (c :: rest) with
      | some (cap, after) =>
          if lit.isPrefixOf (after.dropWhile Char.isWhitespace) then some cap
          else matchNumThenLit lit rest
      | none => matchNumThenLit lit rest

/-- Leftmost match of `LIT\s*(\d+\.?\d*)` (patterns 3 and 4 of
bet-parser.ts lines 16-17); returns the capture group. -/
def matchLitThenNum (lit : List Char) : List Char → Option (List Char)
  | [] => none
  | c :: rest =>
      if lit.isPrefixOf (c :: rest) then
        match numCapture (((c :: rest).drop lit.length).dropWhile Char.isWhitespace) with
        | some (cap, _) => some cap
        | none => matchLitThenNum lit rest
      else matchLitThenNum lit rest

def digitsToNat (ds : List Char) : Nat :=
  ds.foldl (fun n c => n * 10 + (c.toNat - '0'.toNat)) 0

/-- An exact decimal rational `num / den` with `den` a power of ten: the
value `parseFloat` reads off a string matched by `\d+\.?\d*`.  Kept as a
numerator/denominator pair of naturals so that the comparisons below are
plain integer arithmetic. -/
structure DecimalAmount where
  num : Nat
  den : Nat
deriving DecidableEq, Repr

/-- `parseFloat` on a capture of `\d+\.?\d*`, as an exact decimal. -/
def decToAmount (cap : List Char) : DecimalAmount :=
  let ip := cap.takeWhile Char.isDigit
  match cap.dropWhile Char.isDigit with
  | '.' :: fp =>
      { num := digitsToNat ip * 10 ^ fp.length + digitsToNat fp, den := 10 ^ fp.length }
  | _ => { num := digitsToNat ip, den := 1 }

/-- `amount === 0` (line 29). -/
def DecimalAmount.isZero (a : DecimalAmount) : Bool := a.num = 0

/-- `amount < 0.001` (line 38), by cross multiplication. -/
def DecimalAmount.ltMinBet (a : DecimalAmount) : Bool := a.num * 1000 < a.den

/-- `amount > 10` (line 47), by cross multiplication. -/
def DecimalAmount.gtMaxBet (a : DecimalAmount) : Bool := 10 * a.den < a.num

/-- The distinct failure messages of bet-parser.ts (lines 34, 43, 52, 88),
as tags. -/
inductive ParseErr where
  | amountMissing
  | amountTooSmall
  | amountTooLarge
  | positionUnclear
deriving DecidableEq, Repr

/-- `BetInfo` (bet-parser.ts lines 1-6). -/
structure BetInfo where
  amount : DecimalAmount
  position : Bool
  isValid : Bool
  error : Option ParseErr
deriving DecidableEq, Repr

/-- Line 57 of bet-parser.ts. -/
def agreeWords : List String :=
  ["true", "agree", "yes", "correct", "right", "will happen", "believe"]

/-- Line 58 of bet-parser.ts. -/
def disagreeWords : List String :=
  ["false", "disagree", "no", "wrong", "incorrect", "wont happen", "doubt"]

/-- Does `needle` occur as a contiguous run anywhere in the list? -/
def containsSeq (needle : List Char) : List Char → Bool
  | [] => needle.isEmpty
  | c :: rest => needle.isPrefixOf (c :: rest) || containsSeq needle rest

/-- JS `String.includes`: substring containment. -/
def containsWord (cs : List Char) (w : String) : Bool :=
  containsSeq w.toList cs

/-- The lowercased, trimmed text the parser works on (line 10). -/
def cleanTextOf (text : String) : List Char :=
  trimChars (text.toList.map toLowerChar)

/-- `BetParser.parseBetFromTweet` (bet-parser.ts lines 9-97). -/
def parseBetFromTweet (text : String) : BetInfo :=
  let cleanText := cleanTextOf text
  let amountOpt :=
    match matchNumThenLit ("eth".toList) cleanText with
    | some cap => some cap
    | none =>
        match matchNumThenLit ("ether".toList) cleanText with
        | some cap => some cap
        | none =>
            match matchLitThenNum ("eth".toList) cleanText with
            | some cap => some cap
            | none => matchLitThenNum ("ether".toList) cleanText
  let amount : DecimalAmount := match amountOpt with
    | some cap => decToAmount cap
    | none => { num := 0, den := 1 }
  if amount.isZero then
    { amount := { num := 0, den := 1 }, position := false, isValid := false,
      error := some .amountMissing }
  else if amount.ltMinBet then
    { amount := amount, position := false, isValid := false, error := some .amountTooSmall }
  else if amount.gtMaxBet then
    { amount := amount, position := false, isValid := false, error := some .amountTooLarge }
  else if agreeWords.any (fun w => containsWord cleanText w) then
    { amount := amount, position := true, isValid := true, error := none }
  else if disagreeWords.any (fun w => containsWord cleanText w) then
    { amount := amount, position := false, isValid := true, error := none }
  else
    { amount := amount, position := false, isValid := false, error := some .positionUnclear }

/-- Claim C8 (amended): the parser is deterministic and case-insensitive —
any two inputs with the same case-folded characters (in particular, the same
input twice, or inputs differing only in letter case) parse identically.
The claim's further conjunct, that surrounding non-token words cannot change
the result, is refuted by `parseBet_context_counterexample`. -/
theorem parseBet_deterministic_case_insensitive (s t : String)
    (h : s.toList.map toLowerChar = t.toList.map toLowerChar) :
    parseBetFromTweet s = parseBetFromTweet t := by
  unfold parseBetFromTweet cleanTextOf
  rw [h]

/-- Witness for claim C8 (amended), at inputs differing only in case. -/
theorem parseBet_deterministic_case_insensitive_witness :
    ("I Bet 0.1 ETH True".toList.map toLowerChar
        = "i bet 0.1 eth true".toList.map toLowerChar)
      ∧ parseBetFromTweet "I Bet 0.1 ETH True" = parseBetFromTweet "i bet 0.1 eth true" :=
  ⟨by decide, parseBet_deterministic_case_insensitive _ _ (by decide)⟩

/-- Counterexample to claim C8 as stated: appending the word "snow" — which
is neither an amount token nor a member of either position vocabulary —
changes the parse from invalid (position unclear) to a valid disagree bet,
because position detection is substring containment and "snow" contains
"no". -/
theorem parseBet_context_counterexample :
    (parseBetFromTweet "bet 0.1 eth hello").isValid = false
      ∧ (parseBetFromTweet "bet 0.1 eth hello snow").isValid = true
      ∧ (parseBetFromTweet "bet 0.1 eth hello snow").position = false
      ∧ ((agreeWords ++ disagreeWords).contains "snow") = false := by
  decide

/-- Claim C10: position detection is substring containment with the agree
list scanned first, so "I bet 0.1 eth this is incorrect" — whose only
position word is the disagree word "incorrect", which contains the agree
word "correct" — parses as a valid AGREE bet. -/
theorem parse_incorrect_matches_agree :
    (parseBetFromTweet "I bet 0.1 eth this is incorrect").isValid = true
      ∧ (parseBetFromTweet "I bet 0.1 eth this is incorrect").position = true
      ∧ disagreeWords.contains "incorrect" = true
      ∧ containsWord ("incorrect".toList) "correct" = true
      ∧ agreeWords.contains "correct" = true := by
  decide

/-! ## The command router (mention-handler.ts) -/

/-- The fields of a fetched tweet that `handleBetRequest` reads. -/
structure Tweet where
  id : String
  conversationId : Option String
  text : String
deriving DecidableEq, Repr

/-- The reply variants of `handleBetRequest`, tagged by source line of
mention-handler.ts. -/
inductive ReplyKind where
  | parseError        -- line 57
  | createFailed      -- line 78
  | originalNotFound  -- line 82
  | marketInfoError   -- line 90
  | alreadyResolved   -- line 95
  | betRegistered     -- lines 100-119: deposit instructions
deriving DecidableEq, Repr

/-- One externally visible action of the router, in the order performed. -/
inductive RouterCall where
  | marketExistsQ (marketId : String)
  | fetchOriginal (marketId : String)
  | createMarketC (marketId text : String) (durationDays : Nat)
  | getMarketInfoQ (marketId : String)
  | placeBetC (marketId : String) (position : Bool) (amount : DecimalAmount)
  | reply (toTweetId : String) (kind : ReplyKind)
deriving DecidableEq, Repr

def RouterCall.isPlaceBet : RouterCall → Bool
  | .placeBetC _ _ _ => true
  | _ => false

/-- The answers the external collaborators give during one
`handleBetRequest` run: the `marketExists` lookup, the root-post fetch (its
text, `none` on failure), the `createMarket` wrapper result, and the
`resolved` flag of `getMarketInfo` (`none` models a `null` info result). -/
structure BetEnv where
  marketExistsAns : Bool
  originalText : Option String
  createMarketAns : Bool
  marketInfoResolved : Option Bool
deriving DecidableEq, Repr

/-- `ContractService.createMarket` (contract-service.ts lines 82-99): the
`try`/`catch` collapses every contract error — an "already exists" revert
included — into `false`. -/
def contractServiceCreateMarket (contractResult : Except String Unit) : Bool :=
  match contractResult with
  | .ok _ => true
  | .error _ => false

/-- The common tail of `handleBetRequest` (mention-handler.ts lines
87-119): fetch market info, then reply — with an error, an
already-resolved notice, or the deposit instructions. -/
def betRequestTail (tweetId marketId : String) (env : BetEnv) : List RouterCall :=
  .getMarketInfoQ marketId ::
    match env.marketInfoResolved with
    | none => [.reply tweetId .marketInfoError]
    | some r =>
        if r then [.reply tweetId .alreadyResolved]
        else [.reply tweetId .betRegistered]

/-- `MentionHandler.handleBetRequest` (mention-handler.ts lines 53-120) as
the list of external actions it performs.  The market id is
`tweet.conversation_id || tweet.id` (line 62). -/
def handleBetRequest (tweet : Tweet) (env : BetEnv) (defaultDuration : Nat) :
    List RouterCall :=
  let betInfo := parseBetFromTweet tweet.text
  if ¬ betInfo.isValid then [.reply tweet.id .parseError]
  else
    let marketId := tweet.conversationId.getD tweet.id
    .marketExistsQ marketId ::
      if env.marketExistsAns then betRequestTail tweet.id marketId env
      else
        .fetchOriginal marketId ::
          match env.originalText with
          | some t =>
              if t.length ≠ 0 then
                .createMarketC marketId t defaultDuration ::
                  (if env.createMarketAns then betRequestTail tweet.id marketId env
                   else [.reply tweet.id .createFailed])
              else [.reply tweet.id .originalNotFound]
          | none => [.reply tweet.id .originalNotFound]

theorem betRequestTail_no_placeBet (tid mid : String) (env : BetEnv) :
    (betRequestTail tid mid env).any RouterCall.isPlaceBet = false := by
  unfold betRequestTail
  cases env.marketInfoResolved with
  | none => simp [RouterCall.isPlaceBet]
  | some r => cases r <;> simp [RouterCall.isPlaceBet]

theorem handleBetRequest_no_placeBet (tweet : Tweet) (env : BetEnv) (d : Nat) :
    (handleBetRequest tweet env d).any RouterCall.isPlaceBet = false := by
  unfold handleBetRequest
  cases hv : (parseBetFromTweet tweet.text).isValid
  case false => simp [hv, RouterCall.isPlaceBet]
  case true =>
    rw [if_neg (by simp [hv])]
    cases he : env.marketExistsAns with
    | true => simp [RouterCall.isPlaceBet, betRequestTail_no_placeBet]
    | false =>
        cases ho : env.originalText with
        | none => simp [RouterCall.isPlaceBet]
        | some t =>
            by_cases hl : t.length ≠ 0
            · cases hc : env.createMarketAns with
              | true => simp [hl, RouterCall.isPlaceBet, betRequestTail_no_placeBet]
              | false => simp [hl, RouterCall.isPlaceBet]
            · simp [hl, RouterCall.isPlaceBet]

/-- Counterexample to claim C5: on a valid bet command for an absent market
the service maps an "already exists" contract error to `false`, and the
router then answers with a creation-failure reply — AlreadyExists is
treated as failure, not success; moreover even when creation succeeds the
router performs no placeBet call at all (it only replies with deposit
instructions). -/
theorem router_no_placeBet_counterexample :
    contractServiceCreateMarket (.error "Market already exists") = false
      ∧ handleBetRequest
          { id := "t1", conversationId := some "m1", text := "i bet 0.1 eth this is true" }
          { marketExistsAns := false, originalText := some "btc will hit 120k",
            createMarketAns := contractServiceCreateMarket (.error "Market already exists"),
            marketInfoResolved := some false } 30
          = [.marketExistsQ "m1", .fetchOriginal "m1",
             .createMarketC "m1" "btc will hit 120k" 30, .reply "t1" .createFailed]
      ∧ (handleBetRequest
          { id := "t1", conversationId := some "m1", text := "i bet 0.1 eth this is true" }
          { marketExistsAns := false, originalText := some "btc will hit 120k",
            createMarketAns := true, marketInfoResolved := some false } 30).any
            RouterCall.isPlaceBet = false := by
  decide

/-- Claim C5 (amended): for a valid bet command on an absent market the
router does resolve the root post and call `createMarket` before any
further ledger interaction — but a `false` answer from the createMarket
wrapper (which is what an AlreadyExists revert produces, see
`contractServiceCreateMarket`) aborts the flow with a failure reply, and no
execution of `handleBetRequest` ever calls `placeBet`. -/
theorem router_bet_flow (tweet : Tweet) (env : BetEnv) (d : Nat) (t : String)
    (hv : (parseBetFromTweet tweet.text).isValid = true)
    (h1 : env.marketExistsAns = false)
    (h2 : env.originalText = some t)
    (h3 : t.length ≠ 0) :
    ((handleBetRequest tweet env d).take 3
        = [.marketExistsQ (tweet.conversationId.getD tweet.id),
           .fetchOriginal (tweet.conversationId.getD tweet.id),
           .createMarketC (tweet.conversationId.getD tweet.id) t d])
      ∧ (env.createMarketAns = false →
          handleBetRequest tweet env d
            = [.marketExistsQ (tweet.conversationId.getD tweet.id),
               .fetchOriginal (tweet.conversationId.getD tweet.id),
               .createMarketC (tweet.conversationId.getD tweet.id) t d,
               .reply tweet.id .createFailed])
      ∧ (handleBetRequest tweet env d).any RouterCall.isPlaceBet = false := by
  refine ⟨?_, ?_, handleBetRequest_no_placeBet tweet env d⟩
  · unfold handleBetRequest
    simp only [hv, h1, h2, h3]
    cases hc : env.createMarketAns <;> simp [betRequestTail, h3]
  · intro hc
    unfold handleBetRequest
    simp [hv, h1, h2, h3, hc]

/-- Witness for claim C5 (amended). -/
theorem router_bet_flow_witness :
    ((parseBetFromTweet "i bet 0.1 eth this is true").isValid = true
      ∧ (false : Bool) = false
      ∧ (some "btc will hit 120k" : Option String) = some "btc will hit 120k"
      ∧ ("btc will hit 120k".length ≠ 0))
    ∧ (((handleBetRequest
          { id := "t1", conversationId := some "m1", text := "i bet 0.1 eth this is true" }
          { marketExistsAns := false, originalText := some "btc will hit 120k",
            createMarketAns := false, marketInfoResolved := some false } 30).take 3
        = [.marketExistsQ "m1", .fetchOriginal "m1", .createMarketC "m1" "btc will hit 120k" 30])
      ∧ ((false : Bool) = false →
          handleBetRequest
            { id := "t1", conversationId := some "m1", text := "i bet 0.1 eth this is true" }
            { marketExistsAns := false, originalText := some "btc will hit 120k",
              createMarketAns := false, marketInfoResolved := some false } 30
            = [.marketExistsQ "m1", .fetchOriginal "m1",
               .createMarketC "m1" "btc will hit 120k" 30, .reply "t1" .createFailed])
      ∧ (handleBetRequest
          { id := "t1", conversationId := some "m1", text := "i bet 0.1 eth this is true" }
          { marketExistsAns := false, originalText := some "btc will hit 120k",
            createMarketAns := false, marketInfoResolved := some false } 30).any
            RouterCall.isPlaceBet = false) :=
  ⟨⟨by decide, rfl, rfl, by decide⟩,
    router_bet_flow
      { id := "t1", conversationId := some "m1", text := "i bet 0.1 eth this is true" }
      { marketExistsAns := false, originalText := some "btc will hit 120k",
        createMarketAns := false, marketInfoResolved := some false } 30
      "btc will hit 120k" (by decide) rfl rfl (by decide)⟩

/-! ## The mention-ingestion batch (twitter-bot.ts, checkForNewMentions)

`TwitterBot.checkForNewMentions` (twitter-bot.ts lines 160-264) fetches the
mentions since the cursor, sorts them ascending by creation time, skips
self-authored mentions and mentions created before the bot started, passes
the rest one at a time to `MentionHandler.processMention`, counts
successes, aborts the batch on a 429 error, continues past other errors,
and finally — if at least one mention was processed — sets `lastMentionId`
to the id of the LAST mention of the sorted batch.  Ids and timestamps are
modelled as naturals (Twitter ids are numeric). -/

structure Mention where
  id : Nat
  authorId : Nat
  createdAt : Nat
deriving DecidableEq, Repr

/-- Result of one `processMention` dispatch: success, or an error carrying
its HTTP-style code (429 = rate limited). -/
inductive DispatchOutcome where
  | ok
  | err (code : Nat)
deriving DecidableEq, Repr

/-- Stable insertion sort ascending by `createdAt` — the
`sort((a, b) => a.created_at - b.created_at)` of lines 191-193. -/
def insertByTime (m : Mention) : List Mention → List Mention
  | [] => [m]
  | x :: xs => if m.createdAt < x.createdAt then m :: x :: xs else x :: insertByTime m xs

def sortByTime (l : List Mention) : List Mention := l.foldr insertByTime []

/-- The per-mention loop (lines 197-233): returns the mentions actually
passed to the handler (in order) and the number of successful dispatches.
A 429 error breaks out of the loop; any other error just skips to the next
mention. -/
def procLoop (selfId startTime : Nat) (dispatch : Mention → DispatchOutcome) :
    List Mention → List Mention × Nat
  | [] => ([], 0)
  | m :: rest =>
      if m.authorId = selfId then procLoop selfId startTime dispatch rest
      else if m.createdAt < startTime then procLoop selfId startTime dispatch rest
      else
        match dispatch m with
        | .ok =>
            let r := procLoop selfId startTime dispatch rest
            (m :: r.1, r.2 + 1)
        | .err c =>
            if c = 429 then ([m], 0)
            else
              let r := procLoop selfId startTime dispatch rest
              (m :: r.1, r.2)

structure BatchResult where
  newCursor : Option Nat
  attempted : List Mention
  processedCount : Nat
deriving DecidableEq, Repr

/-- `checkForNewMentions` for one fetched batch (lines 160-241): the empty
batch returns immediately; otherwise the sorted batch is processed and the
cursor is updated to the id of the last sorted mention iff
`processedCount > 0` (lines 235-239). -/
def checkForNewMentions (selfId startTime : Nat) (cursor : Option Nat)
    (fetched : List Mention) (dispatch : Mention → DispatchOutcome) : BatchResult :=
  if fetched.isEmpty then
    { newCursor := cursor, attempted := [], processedCount := 0 }
  else
    let sorted := sortByTime fetched
    let r := procLoop selfId startTime dispatch sorted
    { newCursor :=
        if 0 < r.2 then
          match sorted.getLast? with
          | some m => some m.id
          | none => cursor
        else cursor,
      attempted := r.1,
      processedCount := r.2 }

theorem procLoop_attempted_mem (selfId startTime : Nat)
    (dispatch : Mention → DispatchOutcome) (l : List Mention) (m : Mention)
    (hm : m ∈ (procLoop selfId startTime dispatch l).1) : m ∈ l := by
  induction l with
  | nil => simp [procLoop] at hm
  | cons x xs ih =>
      unfold procLoop at hm
      by_cases h1 : x.authorId = selfId
      · simp only [h1, if_true] at hm
        exact List.mem_cons_of_mem x (ih hm)
      · simp only [h1, if_false] at hm
        by_cases h2 : x.createdAt < startTime
        · simp only [h2, if_true] at hm
          exact List.mem_cons_of_mem x (ih hm)
        · simp only [h2, if_false] at hm
          cases hd : dispatch x with
          | ok =>
              rw [hd] at hm
              simp only [List.mem_cons] at hm
              rcases hm with hm | hm
              · exact hm ▸ List.mem_cons_self x xs
              · exact List.mem_cons_of_mem x (ih hm)
          | err c =>
              rw [hd] at hm
              by_cases hc : c = 429
              · simp only [hc, if_true] at hm
                simp only [List.mem_singleton] at hm
                exact hm ▸ List.mem_cons_self x xs
              · simp only [hc, if_false] at hm
                simp only [List.mem_cons] at hm
                rcases hm with hm | hm
                · exact hm ▸ List.mem_cons_self x xs
                · exact List.mem_cons_of_mem x (ih hm)

theorem procLoop_attempted_fresh (selfId startTime : Nat)
    (dispatch : Mention → DispatchOutcome) (l : List Mention) (m : Mention)
    (hm : m ∈ (procLoop selfId startTime dispatch l).1) :
    ¬ (m.createdAt < startTime) := by
  induction l with
  | nil => simp [procLoop] at hm
  | cons x xs ih =>
      unfold procLoop at hm
      by_cases h1 : x.authorId = selfId
      · simp only [h1, if_true] at hm
        exact ih hm
      · simp only [h1, if_false] at hm
        by_cases h2 : x.createdAt < startTime
        · simp only [h2, if_true] at hm
          exact ih hm
        · simp only [h2, if_false] at hm
          cases hd : dispatch x with
          | ok =>
              rw [hd] at hm
              simp only [List.mem_cons] at hm
              rcases hm with hm | hm
              · exact hm ▸ h2
              · exact ih hm
          | err c =>
              rw [hd] at hm
              by_cases hc : c = 429
              · simp only [hc, if_true, List.mem_singleton] at hm
                exact hm ▸ h2
              · simp only [hc, if_false, List.mem_cons] at hm
                rcases hm with hm | hm
                · exact hm ▸ h2
                · exact ih hm

theorem insertByTime_mem (m x : Mention) (l : List Mention)
    (h : m ∈ insertByTime x l) : m = x ∨ m ∈ l := by
  induction l with
  | nil => simpa [insertByTime] using h
  | cons y ys ih =>
      unfold insertByTime at h
      by_cases hy : x.createdAt < y.createdAt
      · simp only [hy, if_true, List.mem_cons] at h
        rcases h with h | h | h
        · exact Or.inl h
        · exact Or.inr (List.mem_cons_self y ys |> (h ▸ ·))
        · exact Or.inr (List.mem_cons_of_mem y h)
      · simp only [hy, if_false, List.mem_cons] at h
        rcases h with h | h
        · exact Or.inr (h ▸ List.mem_cons_self y ys)
        · rcases ih h with h2 | h2
          · exact Or.inl h2
          · exact Or.inr (List.mem_cons_of_mem y h2)

theorem sortByTime_mem (l : List Mention) (m : Mention)
    (hm : m ∈ sortByTime l) : m ∈ l := by
  induction l with
  | nil => simp [sortByTime] at hm
  | cons x xs ih =>
      unfold sortByTime at hm
      simp only [List.foldr_cons] at hm
      rcases insertByTime_mem m x (xs.foldr insertByTime []) hm with h | h
      · exact h ▸ List.mem_cons_self x xs
      · exact List.mem_cons_of_mem x (ih h)

/-- Claim C7: no fetched mention created before the ingestor's start time
is ever passed to the mention handler, whatever the cursor says. -/
theorem no_stale_dispatch (selfId startTime : Nat) (cursor : Option Nat)
    (fetched : List Mention) (dispatch : Mention → DispatchOutcome) (m : Mention)
    (hm : m ∈ (checkForNewMentions selfId startTime cursor fetched dispatch).attempted) :
    ¬ (m.createdAt < startTime) := by
  unfold checkForNewMentions at hm
  by_cases he : fetched.isEmpty
  · simp [he] at hm
  · simp only [he, if_false] at hm
    exact procLoop_attempted_fresh selfId startTime dispatch (sortByTime fetched) m hm

/-- Witness for claim C7. -/
theorem no_stale_dispatch_witness :
    ((⟨1, 7, 10⟩ : Mention)
        ∈ (checkForNewMentions 99 5 none [⟨1, 7, 10⟩] (fun _ => .ok)).attempted)
      ∧ ¬ ((⟨1, 7, 10⟩ : Mention).createdAt < 5) :=
  ⟨by decide, no_stale_dispatch 99 5 none [⟨1, 7, 10⟩] (fun _ => .ok) ⟨1, 7, 10⟩ (by decide)⟩

/-- Counterexample to claim C6: in a batch of two fetched mentions where
the first dispatch succeeds and the second fails with a non-429 error, the
cursor still advances to the id of the second (last) mention, so a fetched
event at (indeed, at exactly) the new cursor value was dispatched
unsuccessfully and will never be re-delivered. -/
theorem cursor_past_failure_counterexample :
    (checkForNewMentions 99 0 none [⟨1, 7, 10⟩, ⟨2, 8, 20⟩]
        (fun m => if m.id = 1 then .ok else .err 500)).newCursor = some 2
      ∧ (fun (m : Mention) => if m.id = 1 then DispatchOutcome.ok else .err 500) ⟨2, 8, 20⟩
          = .err 500
      ∧ (checkForNewMentions 99 0 none [⟨1, 7, 10⟩, ⟨2, 8, 20⟩]
          (fun m => if m.id = 1 then .ok else .err 500)).processedCount = 1 := by
  decide

/-- Claim C6 (amended): whenever at least one mention of the batch was
dispatched successfully, the cursor is set to the id of the last mention of
the sorted batch — even if later mentions failed or the batch was aborted
by a rate limit — and everything passed to the handler came from the
fetched batch.  Only a batch with zero successful dispatches is left before
the cursor for re-delivery. -/
theorem cursor_advance_rule (selfId startTime : Nat) (cursor : Option Nat)
    (fetched : List Mention) (dispatch : Mention → DispatchOutcome)
    (hn : 0 < (checkForNewMentions selfId startTime cursor fetched dispatch).processedCount) :
    (∃ m, (sortByTime fetched).getLast? = some m
        ∧ (checkForNewMentions selfId startTime cursor fetched dispatch).newCursor = some m.id)
      ∧ ∀ x ∈ (checkForNewMentions selfId startTime cursor fetched dispatch).attempted,
          x ∈ fetched := by
  cases fetched with
  | nil => simp [checkForNewMentions] at hn
  | cons f fs =>
      have hn2 : 0 < (procLoop selfId startTime dispatch (sortByTime (f :: fs))).2 := hn
      constructor
      · cases hg : (sortByTime (f :: fs)).getLast? with
        | none =>
            exfalso
            rw [List.getLast?_eq_none_iff] at hg
            rw [hg] at hn2
            simp [procLoop] at hn2
        | some m =>
            refine ⟨m, rfl, ?_⟩
            show (if 0 < (procLoop selfId startTime dispatch (sortByTime (f :: fs))).2 then
                match (sortByTime (f :: fs)).getLast? with
                | some m => some m.id
                | none => cursor
              else cursor) = some m.id
            rw [if_pos hn2, hg]
      · intro x hx
        have hx2 : x ∈ (procLoop selfId startTime dispatch (sortByTime (f :: fs))).1 := hx
        exact sortByTime_mem (f :: fs) x
          (procLoop_attempted_mem selfId startTime dispatch (sortByTime (f :: fs)) x hx2)

/-- Witness for claim C6 (amended), at the counterexample batch. -/
theorem cursor_advance_rule_witness :
    (0 < (checkForNewMentions 99 0 none [⟨1, 7, 10⟩, ⟨2, 8, 20⟩]
        (fun m => if m.id = 1 then .ok else .err 500)).processedCount)
    ∧ ((∃ m, (sortByTime [⟨1, 7, 10⟩, ⟨2, 8, 20⟩]).getLast? = some m
          ∧ (checkForNewMentions 99 0 none [⟨1, 7, 10⟩, ⟨2, 8, 20⟩]
              (fun m => if m.id = 1 then .ok else .err 500)).newCursor = some m.id)
      ∧ ∀ x ∈ (checkForNewMentions 99 0 none [⟨1, 7, 10⟩, ⟨2, 8, 20⟩]
          (fun m => if m.id = 1 then .ok else .err 500)).attempted,
            x ∈ [⟨1, 7, 10⟩, ⟨2, 8, 20⟩] ) :=
  ⟨by decide,
    cursor_advance_rule 99 0 none [⟨1, 7, 10⟩, ⟨2, 8, 20⟩]
      (fun m => if m.id = 1 then .ok else .err 500) (by decide)⟩

/-! ## The adaptive polling governor (twitter-bot.ts, intelligentPollForMentions)

One iteration of `intelligentPollForMentions` (twitter-bot.ts lines
103-155) updates `{consecutiveEmptyChecks, currentInterval,
hasBeenMentioned}` from the poll outcome.  Intervals are in milliseconds;
`currentInterval * 1.5` is modelled exactly as multiplication by `3/2` over
`ℚ`.  `maxInterval` is the literal `600000` (line 108) and the first-time
idle interval is `Math.min(maxInterval, 300000)` (line 127).  Each branch
of the update logs a distinct message; `PollMode` records which branch
ran. -/

structure PollState where
  consecutiveEmptyChecks : Nat
  currentInterval : ℚ
  hasBeenMentioned : Bool
deriving DecidableEq, Repr

/-- What one `checkForNewMentions` round produced, as seen by the loop:
a mention count (possibly zero), or an exception — rate-limited (code 429)
or any other error. -/
inductive PollEvent where
  | mentions (n : Nat)
  | rateLimited
  | otherError
deriving DecidableEq, Repr

/-- Which branch of the update ran, i.e. which log line was printed:
`active` = line 120, `waiting` = line 128, `quiet` = line 133 (the
geometric-growth path), `belowThreshold` = the silent empty branch,
`cooldown` = the 429 catch (line 145), `errorWait` = the generic catch
(line 150). -/
inductive PollMode where
  | active
  | waiting
  | quiet
  | belowThreshold
  | cooldown
  | errorWait
deriving DecidableEq, Repr

def maxIntervalMs : ℚ := 600000

/-- One iteration of the polling-loop state update (lines 111-153). -/
def pollStep (minInterval : ℚ) (st : PollState) : PollEvent → PollState × PollMode
  | .mentions n =>
      if 0 < n then
        ({ consecutiveEmptyChecks := 0, currentInterval := minInterval,
           hasBeenMentioned := true }, .active)
      else
        let c := st.consecutiveEmptyChecks + 1
        if st.hasBeenMentioned = false then
          ({ consecutiveEmptyChecks := c, currentInterval := min maxIntervalMs 300000,
             hasBeenMentioned := false }, .waiting)
        else if 3 ≤ c then
          ({ consecutiveEmptyChecks := c,
             currentInterval := min maxIntervalMs (st.currentInterval * (3 / 2)),
             hasBeenMentioned := true }, .quiet)
        else
          ({ consecutiveEmptyChecks := c, currentInterval := st.currentInterval,
             hasBeenMentioned := true }, .belowThreshold)
  | .rateLimited =>
      ({ consecutiveEmptyChecks := st.consecutiveEmptyChecks,
         currentInterval := maxIntervalMs,
         hasBeenMentioned := st.hasBeenMentioned }, .cooldown)
  | .otherError => (st, .errorWait)

/-- Claim C9: before any mention has ever been found, every empty poll runs
the fixed-interval waiting branch and sets the interval to 300000 ms (the
first-time idle interval, `min 600000 300000`); in particular two
consecutive empty polls from such a state both yield 300000 ms, never the
geometric path; and the geometric-growth (quiet) branch runs only when a
mention has been found before and the consecutive-empty count has reached
the threshold of 3. -/
theorem first_time_idle_interval (minInterval : ℚ) (st : PollState)
    (h : st.hasBeenMentioned = false) :
    (pollStep minInterval st (.mentions 0)).1.currentInterval = 300000
      ∧ (pollStep minInterval st (.mentions 0)).2 = .waiting
      ∧ (pollStep minInterval st (.mentions 0)).1.hasBeenMentioned = false
      ∧ (pollStep minInterval (pollStep minInterval st (.mentions 0)).1
          (.mentions 0)).1.currentInterval = 300000
      ∧ (pollStep minInterval (pollStep minInterval st (.mentions 0)).1
          (.mentions 0)).2 = .waiting
      ∧ (∀ (st2 : PollState) (e : PollEvent),
          (pollStep minInterval st2 e).2 = PollMode.quiet →
            st2.hasBeenMentioned = true ∧ 3 ≤ st2.consecutiveEmptyChecks + 1) := by
  have hmin : min maxIntervalMs (300000 : ℚ) = 300000 := by
    rw [min_eq_right]
    norm_num [maxIntervalMs]
  refine ⟨?_, ?_, ?_, ?_, ?_, ?_⟩
  · simp [pollStep, h, hmin]
  · simp [pollStep, h]
  · simp [pollStep, h]
  · simp [pollStep, h, hmin]
  · simp [pollStep, h]
  · intro st2 e hq
    cases e with
    | mentions n =>
        unfold pollStep at hq
        by_cases hn : 0 < n
        · simp [hn] at hq
        · by_cases hb : st2.hasBeenMentioned = false
          · simp [hn, hb] at hq
          · by_cases hc : 3 ≤ st2.consecutiveEmptyChecks + 1
            · exact ⟨by simpa using hb, hc⟩
            · simp [hn, hb, hc] at hq
    | rateLimited => simp [pollStep] at hq
    | otherError => simp [pollStep] at hq

/-- The loop's start state: interval = the configured 60000 ms poll
interval, nothing found yet. -/
def startPollState : PollState :=
  { consecutiveEmptyChecks := 0, currentInterval := 60000, hasBeenMentioned := false }

/-- Witness for claim C9, from the bot's start state. -/
theorem first_time_idle_interval_witness :
    startPollState.hasBeenMentioned = false
    ∧ ((pollStep 60000 startPollState (.mentions 0)).1.currentInterval = 300000
      ∧ (pollStep 60000 startPollState (.mentions 0)).2 = .waiting
      ∧ (pollStep 60000 startPollState (.mentions 0)).1.hasBeenMentioned = false
      ∧ (pollStep 60000 (pollStep 60000 startPollState (.mentions 0)).1
          (.mentions 0)).1.currentInterval = 300000
      ∧ (pollStep 60000 (pollStep 60000 startPollState (.mentions 0)).1
          (.mentions 0)).2 = .waiting
      ∧ (∀ (st2 : PollState) (e : PollEvent),
          (pollStep 60000 st2 e).2 = PollMode.quiet →
            st2.hasBeenMentioned = true ∧ 3 ≤ st2.consecutiveEmptyChecks + 1)) :=
  ⟨rfl, first_time_idle_interval 60000 startPollState rfl⟩

end BaseBet
